import Mathlib

/-!
Verification of the ensemble dynamics model in `dynamics_model.py`
(classes `Net`, `DynamicsModel`, `ProbLoss`).

Shallow embedding conventions:
* a torch tensor of shape `(rows, cols)` is a `Mat`: explicit dimensions plus
  a total entry function `ℕ → ℕ → ℝ` (entries outside the shape are junk, so
  value statements are phrased with the extensional `Mat.matEq`);
* operations that can raise a runtime shape error in torch (`nn.Linear` on a
  mismatched input, elementwise `+` on non-broadcastable shapes) return
  `Option Mat`;
* network weights are inputs to the construction functions (they are produced
  by torch's random initializer, which the claims quantify over).
-/

noncomputable section

/-- A real matrix with explicit shape, mirroring a 2-d torch tensor. -/
structure Mat where
  rows : ℕ
  cols : ℕ
  entry : ℕ → ℕ → ℝ

/-- Broadcast rule for one dimension of a torch elementwise binary op:
equal sizes broadcast to themselves, a size-1 dimension stretches, anything
else is a runtime error. -/
def bdim (a b : ℕ) : Option ℕ :=
  if a = b then some a
  else if a = 1 then some b
  else if b = 1 then some a
  else none

/-- Elementwise addition (`+` / `+=` on tensors) with torch broadcasting;
`none` models the runtime shape error. -/
def Mat.add? (a b : Mat) : Option Mat :=
  if a.rows = b.rows ∧ a.cols = b.cols then
    some ⟨a.rows, a.cols, fun i j => a.entry i j + b.entry i j⟩
  else
    match bdim a.rows b.rows, bdim a.cols b.cols with
    | some r, some c =>
        some ⟨r, c, fun i j =>
          a.entry (if a.rows = 1 then 0 else i) (if a.cols = 1 then 0 else j)
          + b.entry (if b.rows = 1 then 0 else i) (if b.cols = 1 then 0 else j)⟩
    | _, _ => none

/-- Division of a tensor by a python integer scalar (`t / len(self.nets)`). -/
def Mat.divScalar (a : Mat) (c : ℕ) : Mat :=
  ⟨a.rows, a.cols, fun i j => a.entry i j / (c : ℝ)⟩

/-- Python/torch column slice `t[:, :c]`: the column count is clamped, rows
and entries are untouched. -/
def Mat.sliceCols (a : Mat) (c : ℕ) : Mat :=
  ⟨a.rows, min a.cols c, a.entry⟩

/-- Elementwise ReLU (`nn.ReLU`). -/
def Mat.relu (a : Mat) : Mat :=
  ⟨a.rows, a.cols, fun i j => max (a.entry i j) 0⟩

/-- Extensional matrix equality: same shape and same entries inside the
shape (entry functions are total, so junk outside the shape is ignored). -/
def Mat.matEq (a b : Mat) : Prop :=
  a.rows = b.rows ∧ a.cols = b.cols ∧
    ∀ i < a.rows, ∀ j < a.cols, a.entry i j = b.entry i j

/-- One `nn.Linear(inF, outF)` layer: weight `w : outF × inF`, bias `b`. -/
structure DLinear where
  inF : ℕ
  outF : ℕ
  w : ℕ → ℕ → ℝ
  b : ℕ → ℝ

/-- Applying a linear layer to a batch: `y[i,j] = Σ_k w[j,k]·x[i,k] + b[j]`;
torch raises on a column-count mismatch, modelled by `none`. -/
def applyLinear (l : DLinear) (x : Mat) : Option Mat :=
  if x.cols = l.inF then
    some ⟨x.rows, l.outF,
      fun i j => (∑ k ∈ Finset.range l.inF, l.w j k * x.entry i k) + l.b j⟩
  else none

/-- The `Net` module of the source: input linear layer, `hid_depth` hidden
linear layers (each followed by the ReLU activation), and an output linear
layer with no trailing activation. -/
structure Net where
  n_in : ℕ
  n_out : ℕ
  hidden_w : ℕ
  inputLin : DLinear
  hidden : List DLinear
  outLin : DLinear

/-- `Net.__init__`: builds the layer stack from the config dimensions; the
weight/bias data `w d`, `b d` of layer `d` is an argument (torch initializes
it randomly). -/
def mkNet (nIn nOut hidW hidDepth : ℕ) (w : ℕ → ℕ → ℕ → ℝ) (b : ℕ → ℕ → ℝ) : Net :=
  { n_in := nIn, n_out := nOut, hidden_w := hidW,
    inputLin := ⟨nIn, hidW, w 0, b 0⟩,
    hidden := (List.range hidDepth).map (fun d => ⟨hidW, hidW, w (d + 1), b (d + 1)⟩),
    outLin := ⟨hidW, nOut, w (hidDepth + 1), b (hidDepth + 1)⟩ }

/-- The part of `Net.forward` up to (and including) the last hidden
activation: input linear layer, ReLU, then each hidden linear layer followed
by ReLU. -/
def Net.hiddenStack (n : Net) (x : Mat) : Option Mat := do
  let h ← applyLinear n.inputLin x
  n.hidden.foldlM (fun acc l => (applyLinear l acc).map Mat.relu) h.relu

/-- `Net.forward`: the hidden stack followed by the output linear layer
(no activation after it). -/
def Net.forward (n : Net) (x : Mat) : Option Mat := do
  let h ← n.hiddenStack x
  applyLinear n.outLin h

/-- The learned state of `ProbLoss`: the bound vectors `max_logvar` and
`min_logvar` (row vectors of length `size`). -/
structure ProbLoss where
  size : ℕ
  max_logvar : ℕ → ℝ
  min_logvar : ℕ → ℝ

/-- `ProbLoss.__init__(size)`: bounds initialized to `+1` and `-1`. -/
def mkProbLoss (size : ℕ) : ProbLoss :=
  ⟨size, fun _ => 1, fun _ => -1⟩

/-- `ProbLoss.softplus_raw` with `B = 1`:
`softplus(x) = log(1 + exp(x * B)) / B`. -/
def softplus_raw (x : ℝ) : ℝ :=
  Real.log (1 + Real.exp (x * 1)) / 1

/-- First soft-clamp step of `ProbLoss.forward`:
`logvar = max_logvar - softplus_raw(max_logvar - logvar)`. -/
def clampAbove (maxlv raw : ℝ) : ℝ :=
  maxlv - softplus_raw (maxlv - raw)

/-- Second soft-clamp step of `ProbLoss.forward`:
`logvar = min_logvar + softplus_raw(logvar - min_logvar)`. -/
def clampBelow (minlv lv : ℝ) : ℝ :=
  minlv + softplus_raw (lv - minlv)

/-- The clamped log-variance entry `(i, j)` computed inside
`ProbLoss.forward`: the raw log-variance is `inputs[:, size:]`, then the two
soft-clamp steps are applied with the `j`-th bound entries. -/
def ProbLoss.logvarClamped (pl : ProbLoss) (inputs : Mat) (i j : ℕ) : ℝ :=
  clampBelow (pl.min_logvar j) (clampAbove (pl.max_logvar j) (inputs.entry i (pl.size + j)))

/-- `ProbLoss.forward`: `mean = inputs[:, :size]`, clamped variance
`var = exp(logvar)`, `diff = mean - targets`, `mid = diff / var`, and the
returned scalar is `trace(diff · midᵀ) + sum(log(var))`, i.e.
`Σ_{i,j} diff[i,j]·mid[i,j] + Σ_{i,j} log(var[i,j])` summed (not averaged)
over the batch. -/
def ProbLoss.forward (pl : ProbLoss) (inputs targets : Mat) : ℝ :=
  let var := fun i j => Real.exp (pl.logvarClamped inputs i j)
  let diff := fun i j => inputs.entry i j - targets.entry i j
  let mid := fun i j => diff i j / var i j
  (∑ i ∈ Finset.range inputs.rows, ∑ j ∈ Finset.range pl.size, diff i j * mid i j)
    + ∑ i ∈ Finset.range inputs.rows, ∑ j ∈ Finset.range pl.size, Real.log (var i j)

/-- `cfg.env`: the environment dimensions read by `DynamicsModel.__init__`. -/
structure EnvCfg where
  state_size : ℕ
  action_size : ℕ
  param_size : ℕ

/-- `cfg.model`: the model flags and network shape read at construction. -/
structure ModelCfg where
  ensemble : Bool
  traj : Bool
  prob : Bool
  E : ℕ
  hid_width : ℕ
  hid_depth : ℕ

/-- The configuration object (the fields `DynamicsModel.__init__` reads). -/
structure Cfg where
  env : EnvCfg
  model : ModelCfg

/-- The state of a `DynamicsModel`: resolved flags and dimensions, the
shared `ProbLoss` state when probabilistic, and the member networks. -/
structure DynamicsModel where
  ens : Bool
  traj : Bool
  prob : Bool
  E : ℕ
  n_in : ℕ
  n_out : ℕ
  probLoss : Option ProbLoss
  nets : List Net

/-- `DynamicsModel.__init__`: resolves `E` from the ensemble flag, `n_in`
from the trajectory flag, instantiates `ProbLoss(n_out)` before doubling
`n_out` in probabilistic mode, and builds `E` member networks. The weight
data `w i`, `b i` of member `i` is an argument (torch initializes it
randomly). -/
def mkDynamicsModel (cfg : Cfg) (w : ℕ → ℕ → ℕ → ℕ → ℝ) (b : ℕ → ℕ → ℕ → ℝ) : DynamicsModel :=
  let E := if cfg.model.ensemble then cfg.model.E else 1
  let nIn := if cfg.model.traj then cfg.env.state_size + cfg.env.param_size + 1
             else cfg.env.state_size + cfg.env.action_size
  let nOut0 := cfg.env.state_size
  let pls := if cfg.model.prob then some (mkProbLoss nOut0) else none
  let nOut := if cfg.model.prob then nOut0 * 2 else nOut0
  { ens := cfg.model.ensemble, traj := cfg.model.traj, prob := cfg.model.prob,
    E := E, n_in := nIn, n_out := nOut, probLoss := pls,
    nets := (List.range E).map
      (fun i => mkNet nIn nOut cfg.model.hid_width cfg.model.hid_depth (w i) (b i)) }

/-- The accumulation loop of `DynamicsModel.predict`:
`prediction = zeros(x.rows, n_out)` then
`prediction += n.forward(x) / len(self.nets)` for each member. -/
def DynamicsModel.ensembleAvg (m : DynamicsModel) (x : Mat) : Option Mat :=
  m.nets.foldlM
    (fun acc n => do
      let f ← n.forward x
      Mat.add? acc (f.divScalar m.nets.length))
    ⟨x.rows, m.n_out, fun _ _ => 0⟩

/-- `DynamicsModel.predict`: the averaged prediction, then
`prediction[:, :21]` in trajectory mode and
`x[:, :21] + prediction[:, :21]` in one-step mode (the literal 21 is
hardcoded in the source). -/
def DynamicsModel.predict (m : DynamicsModel) (x : Mat) : Option Mat := do
  let pred ← m.ensembleAvg x
  if m.traj then pure (pred.sliceCols 21)
  else Mat.add? (x.sliceCols 21) (pred.sliceCols 21)

/-- `DynamicsModel.predict` with the model state threaded explicitly: the
body of `predict` (and of `Net.forward`) contains no assignment to any model
attribute and draws no randomness, so the post-state is the pre-state. -/
def DynamicsModel.predictSt (m : DynamicsModel) (x : Mat) : Option Mat × DynamicsModel :=
  (m.predict x, m)

/-!
The dataset partitioning of `DynamicsModel.train` uses
`sklearn.model_selection.KFold(n_splits=E)` with its default
`shuffle=False`: over `N` samples it yields `E` folds of contiguous indices,
the first `N % E` folds of size `N / E + 1` and the rest of size `N / E`;
member `i` is paired with split `i`, its held-out set is fold `i` and its
training set is every index not in fold `i`, in order. (`KFold` itself
rejects `E < 2` at construction and `E > N` at split time, which is why the
theorems below assume `2 ≤ E ≤ N`.)
-/

/-- Size of fold `i` in sklearn's `KFold(n_splits=E)` over `N` samples. -/
def foldSize (N E i : ℕ) : ℕ :=
  N / E + if i < N % E then 1 else 0

/-- First index of fold `i`: the running total of the previous fold sizes
(the `current = stop` accumulation in sklearn's `_iter_test_indices`). -/
def foldStart (N E : ℕ) : ℕ → ℕ
  | 0 => 0
  | i + 1 => foldStart N E i + foldSize N E i

/-- The held-out (test) index list of member `i`:
`indices[current : current + fold_size]` of `indices = arange(N)`. -/
def testIndices (N E i : ℕ) : List ℕ :=
  ((List.range N).drop (foldStart N E i)).take (foldSize N E i)

/-- The training index list of member `i`: all sample indices not in its
held-out fold, in order (sklearn's complement mask). -/
def trainIndices (N E i : ℕ) : List ℕ :=
  (List.range N).filter (fun j => decide (j ∉ testIndices N E i))

/-!
`Net.optimize` embedding.  The claims about `optimize` (C7, C8) concern its
dataset partitioning, loop structure and error behaviour, not the values
produced by gradient descent, so the per-batch scalar
`loss_fn(forward(inputs), targets).item()` — which depends on the evolving
weights and on the `DataLoader` shuffle order — is abstracted as an oracle
`ℕ → ℕ → ℝ` indexed by (epoch, batch).  Everything else follows the source
statement by statement: the python `int()` truncation of `split * len`, the
python slices `dataset[:cut]` / `dataset[cut:]`, the construction of the two
`DataLoader(…, batch_size=bs, shuffle=True)` loaders, the loader length
`ceil(n / batch)` (default `drop_last=False`), the `range(epochs)` loop, and
the accumulation `error += loss / (len(loader) * batch)`.  `DataLoader`
construction can raise: with `shuffle=True` it eagerly builds a
`RandomSampler`, whose constructor rejects an empty data source
(`num_samples=0`), and its `BatchSampler` rejects a non-positive batch size;
these `ValueError`s are modelled as `Except.error`.  Past loader
construction nothing on this path raises: the division by
`len(loader) * batch` sits inside the batch loop, so with zero batches it is
never evaluated and the epoch error stays at its initial `0`.
-/

/-- Python `int()` applied to a number: truncation toward zero. -/
def pyIntOfRat (q : ℚ) : ℤ :=
  if 0 ≤ q then ⌊q⌋ else -⌊-q⌋

/-- Python slice `l[:c]` for an integer `c` (a negative `c` counts from the
end; out-of-range values are clamped). -/
def pySliceTo {α : Type} (l : List α) (c : ℤ) : List α :=
  if c < 0 then l.take (l.length - (-c).toNat) else l.take c.toNat

/-- Python slice `l[c:]` for an integer `c`. -/
def pySliceFrom {α : Type} (l : List α) (c : ℤ) : List α :=
  if c < 0 then l.drop (l.length - (-c).toNat) else l.drop c.toNat

/-- `len(DataLoader(ds, batch_size=bs))` with the default
`drop_last=False`: `ceil(len(ds) / bs)`. -/
def loaderLen (n bs : ℕ) : ℕ :=
  (n + bs - 1) / bs

/-- The optimizer hyperparameters `Net.optimize` reads from
`cfg.model.optimizer`. -/
structure OptCfg where
  lr : ℝ
  batch : ℕ
  split : ℚ
  epochs : ℤ

/-- `Net.optimize(dataset, cfg)`: zip the two dataset arrays, split at
`int(split * len)`, build the two shuffling loaders, then for each epoch
accumulate the normalized train and test errors and collect them into the
two returned lists.  The `Except.error` cases model the `ValueError`s of
`DataLoader` construction, in the source's evaluation order: `trainLoader`
is built before `testLoader`, and inside `DataLoader.__init__` the
`shuffle=True` `RandomSampler` (which rejects an empty data source) is
built before the `BatchSampler` (which rejects a non-positive batch size).
Past loader construction no statement on this path can raise. -/
def optimizeRun {α β : Type} (dataset : List α × List β) (cfg : OptCfg)
    (trainLoss testLoss : ℕ → ℕ → ℝ) : Except String (List ℝ × List ℝ) :=
  let zipped := dataset.1.zip dataset.2
  let cut := pyIntOfRat (cfg.split * zipped.length)
  let trainSet := pySliceTo zipped cut
  let testSet := pySliceFrom zipped cut
  if trainSet.length = 0 then
    Except.error "num_samples should be a positive integer value, but got num_samples=0"
  else if cfg.batch = 0 then
    Except.error "batch_size should be a positive integer value"
  else if testSet.length = 0 then
    Except.error "num_samples should be a positive integer value, but got num_samples=0"
  else
    let nTrainB := loaderLen trainSet.length cfg.batch
    let nTestB := loaderLen testSet.length cfg.batch
    Except.ok
      ((List.range cfg.epochs.toNat).map (fun e =>
         (List.range nTrainB).foldl
           (fun acc i => acc + trainLoss e i / ((nTrainB * cfg.batch : ℕ) : ℝ)) 0),
       (List.range cfg.epochs.toNat).map (fun e =>
         (List.range nTestB).foldl
           (fun acc i => acc + testLoss e i / ((nTestB * cfg.batch : ℕ) : ℝ)) 0))

/-! ### Soft-clamp lemmas for `ProbLoss` -/

lemma softplus_raw_eq (x : ℝ) : softplus_raw x = Real.log (1 + Real.exp x) := by
  simp [softplus_raw]

lemma softplus_raw_pos (x : ℝ) : 0 < softplus_raw x := by
  rw [softplus_raw_eq]
  exact Real.log_pos (by linarith [Real.exp_pos x])

lemma clampAbove_lt (maxlv raw : ℝ) : clampAbove maxlv raw < maxlv := by
  have := softplus_raw_pos (maxlv - raw)
  rw [clampAbove]; linarith

lemma clampBelow_gt (minlv lv : ℝ) : minlv < clampBelow minlv lv := by
  have := softplus_raw_pos (lv - minlv)
  rw [clampBelow]; linarith

lemma clampBelow_eq_log (minlv lv : ℝ) :
    clampBelow minlv lv = Real.log (Real.exp minlv + Real.exp lv) := by
  rw [clampBelow, softplus_raw_eq, Real.exp_sub]
  have hm : (0 : ℝ) < Real.exp minlv := Real.exp_pos _
  have hstep : 1 + Real.exp lv / Real.exp minlv
      = (Real.exp minlv + Real.exp lv) / Real.exp minlv := by
    field_simp
  rw [hstep, Real.log_div (by positivity) (ne_of_gt hm), Real.log_exp]
  ring

/-- Claim C1 (amended): after the two soft-clamp steps of `ProbLoss.forward`
the log-variance always satisfies the lower bound `min_logvar < logvar`, and
the intermediate value after the first clamp step satisfies
`logvar ≤ max_logvar`; but the final value is only bounded above by
`log(exp(min_logvar) + exp(max_logvar))`, not by `max_logvar` itself (the
second clamp can push it back above `max_logvar`). -/
theorem claim_c1_amended (pl : ProbLoss) (inputs : Mat) (i j : ℕ) :
    pl.min_logvar j < pl.logvarClamped inputs i j
    ∧ clampAbove (pl.max_logvar j) (inputs.entry i (pl.size + j)) < pl.max_logvar j
    ∧ pl.logvarClamped inputs i j
        < Real.log (Real.exp (pl.min_logvar j) + Real.exp (pl.max_logvar j)) := by
  refine ⟨clampBelow_gt _ _, clampAbove_lt _ _, ?_⟩
  rw [ProbLoss.logvarClamped, clampBelow_eq_log]
  have h1 := clampAbove_lt (pl.max_logvar j) (inputs.entry i (pl.size + j))
  have h2 := Real.exp_lt_exp.mpr h1
  exact Real.log_lt_log (by positivity) (by linarith)

/-- Concrete `inputs` batch for the C1 counterexample: one sample, `size = 1`,
raw log-variance entry `inputs[0, 1] = 3`. -/
def matC1 : Mat := ⟨1, 2, fun _ j => if j = 1 then 3 else 0⟩

/-- Claim C1 counterexample: with the initial bounds `max_logvar = 1`,
`min_logvar = -1` of `ProbLoss(1)` and raw network log-variance `3`, the
log-variance computed by the two soft-clamp steps of `ProbLoss.forward` is
strictly greater than `max_logvar`, so the claimed elementwise bound
`logvar ≤ max_logvar` fails. -/
theorem claim_c1_counterexample :
    (mkProbLoss 1).max_logvar 0 < (mkProbLoss 1).logvarClamped matC1 0 0 := by
  have hentry : matC1.entry 0 ((mkProbLoss 1).size + 0) = 3 := by
    norm_num [matC1, mkProbLoss]
  have hmax : (mkProbLoss 1).max_logvar 0 = 1 := rfl
  have hmin : (mkProbLoss 1).min_logvar 0 = -1 := rfl
  rw [ProbLoss.logvarClamped, hentry, hmax, hmin, clampBelow_eq_log]
  set u : ℝ := Real.exp (-2) with hu_def
  have hu : (0 : ℝ) < u := Real.exp_pos _
  have h1u : (0 : ℝ) < 1 + u := by linarith
  have hca : clampAbove 1 3 = 1 - Real.log (1 + u) := by
    rw [clampAbove, softplus_raw_eq]
    norm_num
  have hexp : Real.exp (clampAbove 1 3) = Real.exp 1 / (1 + u) := by
    rw [hca, Real.exp_sub, Real.exp_log h1u]
  have e1 : Real.exp 1 * u = Real.exp (-1) := by
    rw [hu_def, ← Real.exp_add]; norm_num
  have e2 : Real.exp (-1) * u = Real.exp (-3) := by
    rw [hu_def, ← Real.exp_add]; norm_num
  have expand : (Real.exp 1 - Real.exp (-1)) * (1 + u)
      = Real.exp 1 - Real.exp (-3) := by
    have h : (Real.exp 1 - Real.exp (-1)) * (1 + u)
        = Real.exp 1 + Real.exp 1 * u - Real.exp (-1) - Real.exp (-1) * u := by ring
    rw [h, e1, e2]; ring
  have key : Real.exp 1 < Real.exp (-1) + Real.exp 1 / (1 + u) := by
    rw [← sub_lt_iff_lt_add', lt_div_iff₀ h1u, expand]
    linarith [Real.exp_pos (-3 : ℝ)]
  rw [hexp, Real.lt_log_iff_exp_lt (by positivity)]
  exact key

/-- Claim C6: whenever the targets coincide with the predicted means and the
clamped variance is `1` in every in-range coordinate, `ProbLoss.forward`
returns exactly `0`: the Mahalanobis trace term and the summed
log-variances (summed, not averaged, over the batch) both vanish. -/
theorem claim_c6 (pl : ProbLoss) (inputs targets : Mat)
    (hmean : ∀ i < inputs.rows, ∀ j < pl.size, targets.entry i j = inputs.entry i j)
    (hvar : ∀ i < inputs.rows, ∀ j < pl.size,
      Real.exp (pl.logvarClamped inputs i j) = 1) :
    pl.forward inputs targets = 0 := by
  rw [ProbLoss.forward]
  have h1 : ∑ i ∈ Finset.range inputs.rows, ∑ j ∈ Finset.range pl.size,
      (inputs.entry i j - targets.entry i j)
        * ((inputs.entry i j - targets.entry i j)
            / Real.exp (pl.logvarClamped inputs i j)) = 0 := by
    refine Finset.sum_eq_zero fun i hi => Finset.sum_eq_zero fun j hj => ?_
    rw [hmean i (Finset.mem_range.mp hi) j (Finset.mem_range.mp hj)]
    simp
  have h2 : ∑ i ∈ Finset.range inputs.rows, ∑ j ∈ Finset.range pl.size,
      Real.log (Real.exp (pl.logvarClamped inputs i j)) = 0 := by
    refine Finset.sum_eq_zero fun i hi => Finset.sum_eq_zero fun j hj => ?_
    rw [hvar i (Finset.mem_range.mp hi) j (Finset.mem_range.mp hj), Real.log_one]
  rw [h1, h2, add_zero]

/-- The raw log-variance value whose clamped image under the initial bounds
`max_logvar = 1`, `min_logvar = -1` is exactly `0` (so the clamped variance
is exactly `1`). -/
def rC6 : ℝ := 1 - Real.log ((Real.exp 2 - Real.exp 1 + 1) / (Real.exp 1 - 1))

lemma clamp_rC6 : clampBelow (-1) (clampAbove 1 rC6) = 0 := by
  have he1 : (1 : ℝ) < Real.exp 1 := by
    calc (1 : ℝ) = Real.exp 0 := (Real.exp_zero).symm
    _ < Real.exp 1 := Real.exp_lt_exp.mpr one_pos
  have h12 : Real.exp 1 < Real.exp 2 := Real.exp_lt_exp.mpr (by norm_num)
  have hden : (0 : ℝ) < Real.exp 1 - 1 := by linarith
  have hnum : (0 : ℝ) < Real.exp 2 - Real.exp 1 + 1 := by linarith
  have hq : (0 : ℝ) < (Real.exp 2 - Real.exp 1 + 1) / (Real.exp 1 - 1) :=
    div_pos hnum hden
  have h1r : (1 : ℝ) - rC6 = Real.log ((Real.exp 2 - Real.exp 1 + 1) / (Real.exp 1 - 1)) := by
    rw [rC6]; ring
  have hexp1r : Real.exp (1 - rC6) = (Real.exp 2 - Real.exp 1 + 1) / (Real.exp 1 - 1) := by
    rw [h1r, Real.exp_log hq]
  have hsum : 1 + (Real.exp 2 - Real.exp 1 + 1) / (Real.exp 1 - 1)
      = Real.exp 2 / (Real.exp 1 - 1) := by
    field_simp
  have hca : clampAbove 1 rC6 = Real.log (Real.exp 1 - 1) - 1 := by
    rw [clampAbove, softplus_raw_eq, hexp1r, hsum,
      Real.log_div (ne_of_gt (Real.exp_pos 2)) (ne_of_gt hden), Real.log_exp]
    ring
  rw [clampBelow, softplus_raw_eq, hca]
  have harg : Real.log (Real.exp 1 - 1) - 1 - (-1) = Real.log (Real.exp 1 - 1) := by ring
  rw [harg, Real.exp_log hden]
  have hone : (1 : ℝ) + (Real.exp 1 - 1) = Real.exp 1 := by ring
  rw [hone, Real.log_exp]
  ring

/-- The 4-sample batch of the C6 witness: `size = 1`, all means `0`, all raw
log-variances `rC6` (whose clamped variance is exactly `1`). -/
def inputsC6 : Mat := ⟨4, 2, fun _ j => if j = 0 then 0 else rC6⟩

/-- The matching targets (equal to the means) of the C6 witness. -/
def targetsC6 : Mat := ⟨4, 1, fun _ _ => 0⟩

/-- Claim C6 witness: the probabilistic loss on the concrete 4-sample batch
with `target = mean` and clamped variance `1` evaluates to exactly `0`. -/
theorem claim_c6_witness : ProbLoss.forward (mkProbLoss 1) inputsC6 targetsC6 = 0 := by
  refine claim_c6 _ _ _ ?_ ?_
  · intro i hi j hj
    have hj0 : j = 0 := by
      have : j < 1 := hj
      omega
    subst hj0
    simp [inputsC6, targetsC6]
  · intro i hi j hj
    have hj0 : j = 0 := by
      have : j < 1 := hj
      omega
    subst hj0
    have hentry : inputsC6.entry i ((mkProbLoss 1).size + 0) = rC6 := by
      norm_num [inputsC6, mkProbLoss]
    rw [ProbLoss.logvarClamped, hentry]
    have hmax : (mkProbLoss 1).max_logvar 0 = 1 := rfl
    have hmin : (mkProbLoss 1).min_logvar 0 = -1 := rfl
    rw [hmax, hmin, clamp_rC6, Real.exp_zero]

/-! ### Shape lemmas for `Net.forward` and `DynamicsModel.predict` -/

/-- The layer-dimension facts that `Net.__init__` establishes. -/
def NetShaped (n : Net) (nIn nOut : ℕ) : Prop :=
  n.inputLin.inF = nIn ∧ n.inputLin.outF = n.hidden_w ∧
  (∀ l ∈ n.hidden, l.inF = n.hidden_w ∧ l.outF = n.hidden_w) ∧
  n.outLin.inF = n.hidden_w ∧ n.outLin.outF = nOut

lemma mkNet_shaped (nIn nOut hidW hidDepth : ℕ) (w : ℕ → ℕ → ℕ → ℝ) (b : ℕ → ℕ → ℝ) :
    NetShaped (mkNet nIn nOut hidW hidDepth w b) nIn nOut := by
  refine ⟨rfl, rfl, ?_, rfl, rfl⟩
  intro l hl
  simp only [mkNet, List.mem_map, List.mem_range] at hl
  obtain ⟨d, _, rfl⟩ := hl
  exact ⟨rfl, rfl⟩

lemma applyLinear_some (l : DLinear) (x : Mat) (hx : x.cols = l.inF) :
    applyLinear l x
      = some ⟨x.rows, l.outF,
          fun i j => (∑ k ∈ Finset.range l.inF, l.w j k * x.entry i k) + l.b j⟩ := by
  rw [applyLinear, if_pos hx]

lemma hiddenFold_shape (hw : ℕ) (l : List DLinear)
    (hl : ∀ li ∈ l, li.inF = hw ∧ li.outF = hw) :
    ∀ h : Mat, h.cols = hw →
      ∃ h2, l.foldlM (fun acc li => (applyLinear li acc).map Mat.relu) h = some h2
        ∧ h2.rows = h.rows ∧ h2.cols = hw := by
  induction l with
  | nil => exact fun h hc => ⟨h, rfl, rfl, hc⟩
  | cons li rest ih =>
    intro h hc
    obtain ⟨hin, hout⟩ := hl li (by simp)
    rw [List.foldlM_cons, applyLinear_some li h (by rw [hc, hin])]
    obtain ⟨h2, hfold, hr, hcc⟩ :=
      ih (fun li' hli' => hl li' (List.mem_cons_of_mem _ hli'))
        (Mat.relu ⟨h.rows, li.outF, fun i j =>
          (∑ k ∈ Finset.range li.inF, li.w j k * h.entry i k) + li.b j⟩)
        (by simp [Mat.relu, hout])
    refine ⟨h2, ?_, by simpa [Mat.relu] using hr, hcc⟩
    simpa [Option.map_some] using hfold

lemma hiddenStack_shape (n : Net) (nIn nOut : ℕ) (hs : NetShaped n nIn nOut)
    (x : Mat) (hx : x.cols = nIn) :
    ∃ h, n.hiddenStack x = some h ∧ h.rows = x.rows ∧ h.cols = n.hidden_w := by
  obtain ⟨h1, h2, h3, _, _⟩ := hs
  rw [Net.hiddenStack, applyLinear_some n.inputLin x (by rw [hx, h1])]
  obtain ⟨h, hfold, hr, hc⟩ :=
    hiddenFold_shape n.hidden_w n.hidden h3
      (Mat.relu ⟨x.rows, n.inputLin.outF, fun i j =>
        (∑ k ∈ Finset.range n.inputLin.inF, n.inputLin.w j k * x.entry i k)
          + n.inputLin.b j⟩)
      (by simp [Mat.relu, h2])
  exact ⟨h, hfold, by simpa [Mat.relu] using hr, hc⟩

lemma net_forward_shape (n : Net) (nIn nOut : ℕ) (hs : NetShaped n nIn nOut)
    (x : Mat) (hx : x.cols = nIn) :
    ∃ y, n.forward x = some y ∧ y.rows = x.rows ∧ y.cols = nOut := by
  obtain ⟨h, hstack, hr, hc⟩ := hiddenStack_shape n nIn nOut hs x hx
  rw [Net.forward, hstack]
  obtain ⟨_, _, _, h4, h5⟩ := hs
  have hred : (do
      let h' ← (some h : Option Mat)
      applyLinear n.outLin h') = applyLinear n.outLin h := rfl
  rw [hred, applyLinear_some n.outLin h (by rw [hc, h4])]
  exact ⟨_, rfl, hr, h5⟩

lemma net_forward_zero (n : Net) (nIn nOut : ℕ) (hs : NetShaped n nIn nOut)
    (hw : ∀ a c, n.outLin.w a c = 0) (hb : ∀ a, n.outLin.b a = 0)
    (x : Mat) (hx : x.cols = nIn) :
    ∃ y, n.forward x = some y ∧ y.rows = x.rows ∧ y.cols = nOut
      ∧ ∀ i j, y.entry i j = 0 := by
  obtain ⟨h, hstack, hr, hc⟩ := hiddenStack_shape n nIn nOut hs x hx
  obtain ⟨_, _, _, h4, h5⟩ := hs
  rw [Net.forward, hstack]
  have hred : (do
      let h' ← (some h : Option Mat)
      applyLinear n.outLin h') = applyLinear n.outLin h := rfl
  rw [hred, applyLinear_some n.outLin h (by rw [hc, h4])]
  refine ⟨_, rfl, hr, h5, ?_⟩
  intro i j
  simp [hw, hb]

lemma add?_same (a b : Mat) (hr : a.rows = b.rows) (hc : a.cols = b.cols) :
    Mat.add? a b = some ⟨a.rows, a.cols, fun i j => a.entry i j + b.entry i j⟩ := by
  rw [Mat.add?, if_pos ⟨hr, hc⟩]

lemma avgFold_shape (x : Mat) (nIn nOut c : ℕ) (l : List Net)
    (hn : ∀ n ∈ l, NetShaped n nIn nOut) (hx : x.cols = nIn) :
    ∀ acc : Mat, acc.rows = x.rows → acc.cols = nOut →
      ∃ p, l.foldlM (fun acc n => do
          let f ← n.forward x
          Mat.add? acc (f.divScalar c)) acc = some p
        ∧ p.rows = x.rows ∧ p.cols = nOut := by
  induction l with
  | nil => exact fun acc hr hc2 => ⟨acc, rfl, hr, hc2⟩
  | cons n rest ih =>
    intro acc hr hc2
    obtain ⟨f, hf, hfr, hfc⟩ := net_forward_shape n nIn nOut (hn n (by simp)) x hx
    rw [List.foldlM_cons]
    have hstep : (do
        let f' ← n.forward x
        Mat.add? acc (f'.divScalar c)) = Mat.add? acc (f.divScalar c) := by
      rw [hf]; rfl
    rw [hstep,
      add?_same acc (f.divScalar c) (by simp [Mat.divScalar, hfr, hr])
        (by simp [Mat.divScalar, hfc, hc2])]
    exact ih (fun n' hn' => hn n' (List.mem_cons_of_mem _ hn')) _ (by simpa using hr)
      (by simpa using hc2)

lemma avgFold_zero (x : Mat) (nIn nOut c : ℕ) (l : List Net)
    (hn : ∀ n ∈ l, NetShaped n nIn nOut)
    (hz : ∀ n ∈ l, ∃ y, n.forward x = some y
      ∧ ∀ i < y.rows, ∀ j < y.cols, y.entry i j = 0)
    (hx : x.cols = nIn) :
    ∀ acc : Mat, acc.rows = x.rows → acc.cols = nOut →
      (∀ i < x.rows, ∀ j < nOut, acc.entry i j = 0) →
      ∃ p, l.foldlM (fun acc n => do
          let f ← n.forward x
          Mat.add? acc (f.divScalar c)) acc = some p
        ∧ p.rows = x.rows ∧ p.cols = nOut
        ∧ ∀ i < x.rows, ∀ j < nOut, p.entry i j = 0 := by
  induction l with
  | nil => exact fun acc hr hc2 h0 => ⟨acc, rfl, hr, hc2, h0⟩
  | cons n rest ih =>
    intro acc hr hc2 h0
    obtain ⟨f, hf, hfr, hfc⟩ := net_forward_shape n nIn nOut (hn n (by simp)) x hx
    obtain ⟨y, hy, hy0⟩ := hz n (by simp)
    have hfy : f = y := Option.some.inj (hf.symm.trans hy)
    subst hfy
    rw [List.foldlM_cons]
    have hstep : (do
        let f' ← n.forward x
        Mat.add? acc (f'.divScalar c)) = Mat.add? acc (f.divScalar c) := by
      rw [hf]; rfl
    rw [hstep,
      add?_same acc (f.divScalar c) (by simp [Mat.divScalar, hfr, hr])
        (by simp [Mat.divScalar, hfc, hc2])]
    refine ih (fun n' hn' => hn n' (List.mem_cons_of_mem _ hn'))
      (fun n' hn' => hz n' (List.mem_cons_of_mem _ hn')) _
      (by simpa using hr) (by simpa using hc2) ?_
    intro i hi j hj
    have hacc0 := h0 i hi j hj
    have hf0 := hy0 i (by rw [hfr]; exact hi) j (by rw [hfc]; exact hj)
    simp [Mat.divScalar, hacc0, hf0]

lemma model_nets_shaped (cfg : Cfg) (w : ℕ → ℕ → ℕ → ℕ → ℝ) (b : ℕ → ℕ → ℕ → ℝ) :
    ∀ n ∈ (mkDynamicsModel cfg w b).nets,
      NetShaped n (mkDynamicsModel cfg w b).n_in (mkDynamicsModel cfg w b).n_out := by
  intro n hn
  simp only [mkDynamicsModel, List.mem_map, List.mem_range] at hn
  obtain ⟨i, _, rfl⟩ := hn
  exact mkNet_shaped _ _ _ _ _ _

lemma ensembleAvg_shape (m : DynamicsModel) (x : Mat)
    (hn : ∀ n ∈ m.nets, NetShaped n m.n_in m.n_out) (hx : x.cols = m.n_in) :
    ∃ p, m.ensembleAvg x = some p ∧ p.rows = x.rows ∧ p.cols = m.n_out := by
  exact avgFold_shape x m.n_in m.n_out m.nets.length m.nets hn hx _ rfl rfl

lemma ensembleAvg_zero (m : DynamicsModel) (x : Mat)
    (hn : ∀ n ∈ m.nets, NetShaped n m.n_in m.n_out)
    (hz : ∀ n ∈ m.nets, ∃ y, n.forward x = some y
      ∧ ∀ i < y.rows, ∀ j < y.cols, y.entry i j = 0)
    (hx : x.cols = m.n_in) :
    ∃ p, m.ensembleAvg x = some p ∧ p.rows = x.rows ∧ p.cols = m.n_out
      ∧ ∀ i < x.rows, ∀ j < m.n_out, p.entry i j = 0 := by
  refine avgFold_zero x m.n_in m.n_out m.nets.length m.nets hn hz hx _ rfl rfl ?_
  intro i _ j _
  rfl

lemma predict_eq (m : DynamicsModel) (x : Mat) (p : Mat) (hp : m.ensembleAvg x = some p) :
    m.predict x = if m.traj then some (p.sliceCols 21)
                  else Mat.add? (x.sliceCols 21) (p.sliceCols 21) := by
  rw [DynamicsModel.predict, hp]
  rfl

/-- The all-zero member weight data. -/
def zwFun : ℕ → ℕ → ℕ → ℕ → ℝ := fun _ _ _ _ => 0

/-- The all-zero member bias data. -/
def zbFun : ℕ → ℕ → ℕ → ℝ := fun _ _ _ => 0

lemma mkNet_forward_zero (nIn nOut hidW hidDepth i : ℕ) (x : Mat) (hx : x.cols = nIn) :
    ∃ y, (mkNet nIn nOut hidW hidDepth (zwFun i) (zbFun i)).forward x = some y
      ∧ y.rows = x.rows ∧ y.cols = nOut ∧ ∀ a c, y.entry a c = 0 :=
  net_forward_zero (mkNet nIn nOut hidW hidDepth (zwFun i) (zbFun i)) nIn nOut
    (mkNet_shaped nIn nOut hidW hidDepth (zwFun i) (zbFun i))
    (fun _ _ => rfl) (fun _ => rfl) x hx

lemma model_nets_zero (cfg : Cfg) (x : Mat)
    (hx : x.cols = (mkDynamicsModel cfg zwFun zbFun).n_in) :
    ∀ n ∈ (mkDynamicsModel cfg zwFun zbFun).nets,
      ∃ y, n.forward x = some y ∧ ∀ i < y.rows, ∀ j < y.cols, y.entry i j = 0 := by
  intro n hn
  simp only [mkDynamicsModel, List.mem_map, List.mem_range] at hn
  obtain ⟨i, _, rfl⟩ := hn
  obtain ⟨y, hy, _, _, h0⟩ := mkNet_forward_zero _ _ _ _ i x hx
  exact ⟨y, hy, fun i _ j _ => h0 i j⟩

/-- Claim C2 (amended): `DynamicsModel.predict` on a batch `x` with `n_in`
columns returns a matrix with `batch_size` rows and `min(n_out, 21)` columns
(21 is the hardcoded slice width of the source), in trajectory mode always
and in one-step mode provided `min(n_in, 21) = min(n_out, 21)` (otherwise
the elementwise add raises a shape error).  The column count equals
`state_size` only in special cases such as `state_size = 21`, or
deterministic trajectory mode with `state_size ≤ 21`; it does not in
general. -/
theorem claim_c2_amended (cfg : Cfg) (w : ℕ → ℕ → ℕ → ℕ → ℝ) (b : ℕ → ℕ → ℕ → ℝ)
    (x : Mat) (hx : x.cols = (mkDynamicsModel cfg w b).n_in)
    (hmode : (mkDynamicsModel cfg w b).traj = true
      ∨ min (mkDynamicsModel cfg w b).n_in 21 = min (mkDynamicsModel cfg w b).n_out 21) :
    ∃ y, (mkDynamicsModel cfg w b).predict x = some y
      ∧ y.rows = x.rows ∧ y.cols = min (mkDynamicsModel cfg w b).n_out 21 := by
  set m := mkDynamicsModel cfg w b with hm
  have hn : ∀ n ∈ m.nets, NetShaped n m.n_in m.n_out := model_nets_shaped cfg w b
  obtain ⟨p, hp, hpr, hpc⟩ := ensembleAvg_shape m x hn hx
  rw [predict_eq m x p hp]
  cases htj : m.traj with
  | true =>
    refine ⟨p.sliceCols 21, by simp, ?_, ?_⟩
    · simp [Mat.sliceCols, hpr]
    · simp [Mat.sliceCols, hpc]
  | false =>
    have hmin : min m.n_in 21 = min m.n_out 21 := by
      rcases hmode with h | h
      · rw [htj] at h; cases h
      · exact h
    have hrr : (x.sliceCols 21).rows = (p.sliceCols 21).rows := by
      simp [Mat.sliceCols, hpr]
    have hcc : (x.sliceCols 21).cols = (p.sliceCols 21).cols := by
      simp only [Mat.sliceCols]
      rw [hx, hpc]
      exact hmin
    rw [if_neg (by simp [htj]), add?_same _ _ hrr hcc]
    refine ⟨_, rfl, by simp [Mat.sliceCols], ?_⟩
    simp only [Mat.sliceCols]
    rw [hx]
    exact hmin

/-- Probabilistic trajectory configuration with `state_size = 3` for the C2
counterexample: `n_in = 5`, `n_out = 6`. -/
def cfgC2 : Cfg := ⟨⟨3, 0, 1⟩, ⟨false, true, true, 0, 1, 0⟩⟩

/-- A one-row input batch with `n_in = 5` columns for the C2 counterexample. -/
def xC2 : Mat := ⟨1, 5, fun _ _ => 0⟩

/-- Claim C2 counterexample: for the probabilistic trajectory configuration
with `state_size = 3`, `predict` returns a matrix with 6 columns (the sliced
mean-and-log-variance output), not `state_size = 3` columns. -/
theorem claim_c2_counterexample :
    ((mkDynamicsModel cfgC2 zwFun zbFun).predict xC2).map Mat.cols = some 6
    ∧ cfgC2.env.state_size = 3 := by
  exact ⟨rfl, rfl⟩

/-- Deterministic trajectory configuration with `state_size = 3` for the C2
witness: `n_in = 5`, `n_out = 3`. -/
def cfgC2w : Cfg := ⟨⟨3, 2, 1⟩, ⟨false, true, false, 0, 1, 0⟩⟩

/-- A two-row input batch with `n_in = 5` columns for the C2 witness. -/
def xC2w : Mat := ⟨2, 5, fun _ _ => 0⟩

/-- Claim C2 witness: the amended shape statement instantiated at the
concrete deterministic trajectory configuration. -/
theorem claim_c2_witness :
    ∃ y, (mkDynamicsModel cfgC2w zwFun zbFun).predict xC2w = some y
      ∧ y.rows = xC2w.rows
      ∧ y.cols = min (mkDynamicsModel cfgC2w zwFun zbFun).n_out 21 :=
  claim_c2_amended cfgC2w zwFun zbFun xC2w rfl (Or.inl rfl)

/-- Claim C3 (amended): in trajectory mode `predict` returns the
member-averaged prediction's first `min(n_out, 21)` columns unchanged (no
delta-add is applied); in one-step mode, when every member network outputs
zeros on `x` and the hardcoded widths line up
(`min(n_in, 21) = min(n_out, 21)`), `predict` returns exactly `x[:, :21]`.
These coincide with the claim's `state_size`-column statements exactly when
`state_size = 21`; with other widths the one-step add can instead raise a
shape error. -/
theorem claim_c3_amended (cfg : Cfg) (w : ℕ → ℕ → ℕ → ℕ → ℝ) (b : ℕ → ℕ → ℕ → ℝ)
    (x : Mat) (hx : x.cols = (mkDynamicsModel cfg w b).n_in) :
    ((mkDynamicsModel cfg w b).traj = true →
      ∃ p, (mkDynamicsModel cfg w b).ensembleAvg x = some p
        ∧ (mkDynamicsModel cfg w b).predict x = some (p.sliceCols 21))
    ∧ ((mkDynamicsModel cfg w b).traj = false →
      min (mkDynamicsModel cfg w b).n_in 21 = min (mkDynamicsModel cfg w b).n_out 21 →
      (∀ n ∈ (mkDynamicsModel cfg w b).nets,
        ∃ y, n.forward x = some y ∧ ∀ i < y.rows, ∀ j < y.cols, y.entry i j = 0) →
      ∃ y, (mkDynamicsModel cfg w b).predict x = some y
        ∧ y.matEq (x.sliceCols 21)) := by
  set m := mkDynamicsModel cfg w b with hm
  have hn : ∀ n ∈ m.nets, NetShaped n m.n_in m.n_out := model_nets_shaped cfg w b
  constructor
  · intro htj
    obtain ⟨p, hp, hpr, hpc⟩ := ensembleAvg_shape m x hn hx
    refine ⟨p, hp, ?_⟩
    rw [predict_eq m x p hp, htj]
    rfl
  · intro htj hmin hz
    obtain ⟨p, hp, hpr, hpc, hp0⟩ := ensembleAvg_zero m x hn hz hx
    have hrr : (x.sliceCols 21).rows = (p.sliceCols 21).rows := by
      simp [Mat.sliceCols, hpr]
    have hcc : (x.sliceCols 21).cols = (p.sliceCols 21).cols := by
      simp only [Mat.sliceCols]
      rw [hx, hpc]
      exact hmin
    rw [predict_eq m x p hp, if_neg (by simp [htj]), add?_same _ _ hrr hcc]
    refine ⟨_, rfl, rfl, rfl, ?_⟩
    intro i hi j hj
    simp only [Mat.sliceCols] at hi hj ⊢
    have hi' : i < x.rows := hi
    have hj' : j < m.n_out := by
      have h1 : j < min x.cols 21 := hj
      have h2 : min x.cols 21 = min m.n_out 21 := by rw [hx]; exact hmin
      omega
    rw [hp0 i hi' j hj', add_zero]

/-- Deterministic one-step configuration with `state_size = 3`,
`action_size = 2` for the C3 counterexample: `n_in = 5`, `n_out = 3`. -/
def cfgC3 : Cfg := ⟨⟨3, 2, 0⟩, ⟨false, false, false, 0, 1, 0⟩⟩

/-- A one-row input batch with `n_in = 5` columns for the C3 counterexample. -/
def xC3 : Mat := ⟨1, 5, fun _ _ => 0⟩

/-- Claim C3 counterexample: deterministic one-step model with
`state_size = 3`, `action_size = 2`, all member networks outputting zeros on
the input.  The claim says `predict` returns exactly `x[:, :3]`, but the
source computes `x[:, :21] + prediction[:, :21]`, an elementwise add of a
5-column and a 3-column tensor, which is a runtime shape error
(`predict` returns `none`), not the identity pass-through. -/
theorem claim_c3_counterexample :
    (mkDynamicsModel cfgC3 zwFun zbFun).predict xC3 = none
    ∧ cfgC3.env.state_size = 3
    ∧ ∀ n ∈ (mkDynamicsModel cfgC3 zwFun zbFun).nets,
        ∃ y, n.forward xC3 = some y ∧ ∀ i < y.rows, ∀ j < y.cols, y.entry i j = 0 := by
  exact ⟨rfl, rfl, model_nets_zero cfgC3 xC3 rfl⟩

/-- Deterministic one-step configuration with `state_size = 21`,
`action_size = 2` for the C3 witness: `n_in = 23`, `n_out = 21`. -/
def cfgC3w : Cfg := ⟨⟨21, 2, 0⟩, ⟨false, false, false, 0, 1, 0⟩⟩

/-- A one-row input batch with `n_in = 23` columns for the C3 witness. -/
def xC3w : Mat := ⟨1, 23, fun _ _ => 5⟩

/-- Claim C3 witness: the amended identity pass-through instantiated at the
concrete zero-weight one-step model with `state_size = 21`. -/
theorem claim_c3_witness :
    ∃ y, (mkDynamicsModel cfgC3w zwFun zbFun).predict xC3w = some y
      ∧ y.matEq (xC3w.sliceCols 21) :=
  (claim_c3_amended cfgC3w zwFun zbFun xC3w rfl).2 rfl rfl
    (model_nets_zero cfgC3w xC3w rfl)

/-- Claim C4: at construction, `n_in = state_size + action_size` in one-step
mode and `n_in = state_size + param_size + 1` in trajectory mode;
`n_out = state_size` when deterministic and `n_out = 2 * state_size` when
probabilistic (with the shared `ProbLoss` instantiated at the undoubled
size); `E` member networks are built, `E` being the configured ensemble size
when ensembling and `1` otherwise — for every combination of the ensemble,
trajectory and probabilistic flags. -/
theorem claim_c4 (cfg : Cfg) (w : ℕ → ℕ → ℕ → ℕ → ℝ) (b : ℕ → ℕ → ℕ → ℝ) :
    (mkDynamicsModel cfg w b).n_in
      = (if cfg.model.traj then cfg.env.state_size + cfg.env.param_size + 1
         else cfg.env.state_size + cfg.env.action_size)
    ∧ (mkDynamicsModel cfg w b).n_out
      = (if cfg.model.prob then 2 * cfg.env.state_size else cfg.env.state_size)
    ∧ (mkDynamicsModel cfg w b).E = (if cfg.model.ensemble then cfg.model.E else 1)
    ∧ (mkDynamicsModel cfg w b).nets.length = (mkDynamicsModel cfg w b).E
    ∧ (mkDynamicsModel cfg w b).probLoss
      = (if cfg.model.prob then some (mkProbLoss cfg.env.state_size) else none) := by
  refine ⟨rfl, ?_, rfl, by simp [mkDynamicsModel], rfl⟩
  cases h : cfg.model.prob <;> simp [mkDynamicsModel, h, Nat.mul_comm]

/-- Claim C9: `predict` (with the model state threaded explicitly) leaves
the model state — member networks and loss-bound parameters — unchanged, and
a second call on the resulting state with the same input returns the
identical output: the source's `predict`/`forward` bodies assign to no model
attribute and draw no randomness, so in the embedding they are pure
functions of the weights and the input. -/
theorem claim_c9 (m : DynamicsModel) (x : Mat) :
    (m.predictSt x).2 = m
    ∧ ((m.predictSt x).2.predictSt x).1 = (m.predictSt x).1
    ∧ (m.predictSt x).2.nets = m.nets
    ∧ (m.predictSt x).2.probLoss = m.probLoss :=
  ⟨rfl, rfl, rfl, rfl⟩

/-! ### KFold partition lemmas -/

lemma foldStart_closed (N E : ℕ) : ∀ i, foldStart N E i = i * (N / E) + min i (N % E) := by
  intro i
  induction i with
  | zero => simp [foldStart]
  | succ i ih =>
    rw [foldStart, ih, foldSize, Nat.succ_mul]
    by_cases h : i < N % E
    · rw [if_pos h]
      have h1 : min i (N % E) = i := min_eq_left (le_of_lt h)
      have h2 : min (i + 1) (N % E) = i + 1 := min_eq_left h
      omega
    · rw [if_neg h]
      have h1 : min i (N % E) = N % E := min_eq_right (by omega)
      have h2 : min (i + 1) (N % E) = N % E := min_eq_right (by omega)
      omega

lemma foldStart_last (N E : ℕ) (hE : 0 < E) : foldStart N E E = N := by
  rw [foldStart_closed]
  have h1 : E * (N / E) + N % E = N := Nat.div_add_mod N E
  have h2 : N % E < E := Nat.mod_lt _ hE
  rw [min_eq_right (le_of_lt h2)]
  omega

lemma foldStart_mono (N E : ℕ) : Monotone (foldStart N E) :=
  monotone_nat_of_le_succ (fun i => by rw [foldStart]; omega)

lemma foldStart_le_N (N E i : ℕ) (hE : 0 < E) (hi : i ≤ E) : foldStart N E i ≤ N :=
  (foldStart_mono N E hi).trans_eq (foldStart_last N E hE)

lemma drop_range' : ∀ (m s n : ℕ), (List.range' s n).drop m = List.range' (s + m) (n - m) := by
  intro m
  induction m with
  | zero => simp
  | succ m ih =>
    intro s n
    cases n with
    | zero => simp
    | succ n =>
      rw [List.range'_succ, List.drop_succ_cons, ih (s + 1) n]
      congr 1 <;> omega

lemma take_range' : ∀ (m s n : ℕ), (List.range' s n).take m = List.range' s (min m n) := by
  intro m
  induction m with
  | zero => simp
  | succ m ih =>
    intro s n
    cases n with
    | zero => simp
    | succ n =>
      rw [List.range'_succ, List.take_succ_cons, ih (s + 1) n,
        show min (m + 1) (n + 1) = (min m n) + 1 by omega, List.range'_succ]

lemma testIndices_eq (N E i : ℕ) (hE : 0 < E) (hi : i < E) :
    testIndices N E i = List.range' (foldStart N E i) (foldSize N E i) := by
  have hstop : foldStart N E i + foldSize N E i ≤ N := by
    have h := foldStart_le_N N E (i + 1) hE hi
    rw [foldStart] at h
    exact h
  rw [testIndices, List.range_eq_range', drop_range', take_range']
  congr 1
  · omega
  · omega

lemma mem_testIndices (N E i : ℕ) (hE : 0 < E) (hi : i < E) (j : ℕ) :
    j ∈ testIndices N E i ↔ foldStart N E i ≤ j ∧ j < foldStart N E (i + 1) := by
  rw [testIndices_eq N E i hE hi, List.mem_range'_1, foldStart]

lemma mem_trainIndices (N E i j : ℕ) :
    j ∈ trainIndices N E i ↔ j < N ∧ j ∉ testIndices N E i := by
  simp [trainIndices, List.mem_filter, List.mem_range]

lemma findGreatest_spec0 (P : ℕ → Prop) [DecidablePred P] (n : ℕ) (h0 : P 0) :
    P (Nat.findGreatest P n) :=
  Nat.findGreatest_spec (Nat.zero_le n) h0

lemma le_findGreatest_of (P : ℕ → Prop) [DecidablePred P] (m n : ℕ) (hmn : m ≤ n) (hm : P m) :
    m ≤ Nat.findGreatest P n :=
  Nat.le_findGreatest hmn hm

lemma fold_locate (N E j : ℕ) (hE : 0 < E) (hj : j < N) :
    ∃ i0, i0 < E ∧ foldStart N E i0 ≤ j ∧ j < foldStart N E (i0 + 1) := by
  have hP0 : foldStart N E 0 ≤ j := by simp [foldStart]
  have hi0P : foldStart N E (Nat.findGreatest (fun i => foldStart N E i ≤ j) E) ≤ j :=
    findGreatest_spec0 (fun i => foldStart N E i ≤ j) E hP0
  have hi0le : Nat.findGreatest (fun i => foldStart N E i ≤ j) E ≤ E :=
    Nat.findGreatest_le E
  have hi0E : Nat.findGreatest (fun i => foldStart N E i ≤ j) E < E := by
    rcases eq_or_lt_of_le hi0le with h | h
    · exfalso
      rw [h, foldStart_last N E hE] at hi0P
      omega
    · exact h
  refine ⟨_, hi0E, hi0P, ?_⟩
  by_contra hcon
  push_neg at hcon
  have hle : Nat.findGreatest (fun i => foldStart N E i ≤ j) E + 1
      ≤ Nat.findGreatest (fun i => foldStart N E i ≤ j) E :=
    le_findGreatest_of (fun i => foldStart N E i ≤ j) _ E (by omega) hcon
  omega

lemma exists_unique_fold (N E j : ℕ) (hE : 0 < E) (hj : j < N) :
    ∃! i, i < E ∧ j ∈ testIndices N E i := by
  obtain ⟨i0, hi0E, hi0P, hj2⟩ := fold_locate N E j hE hj
  refine ⟨i0, ⟨hi0E, (mem_testIndices N E i0 hE hi0E j).mpr ⟨hi0P, hj2⟩⟩, ?_⟩
  rintro i' ⟨hi'E, hmem⟩
  rw [mem_testIndices N E i' hE hi'E] at hmem
  by_contra hne
  rcases lt_or_gt_of_ne hne with h | h
  · have hmono : foldStart N E (i' + 1) ≤ foldStart N E i0 := foldStart_mono N E (by omega)
    omega
  · have hmono : foldStart N E (i0 + 1) ≤ foldStart N E i' := foldStart_mono N E (by omega)
    omega

lemma foldSize_lt (N E i : ℕ) (hE : 2 ≤ E) (hEN : E ≤ N) : foldSize N E i < N := by
  have hpos : 0 < E := by omega
  have hdm : E * (N / E) + N % E = N := Nat.div_add_mod N E
  have hq : 1 ≤ N / E := (Nat.one_le_div_iff hpos).mpr hEN
  have h2 : 2 * (N / E) ≤ E * (N / E) := Nat.mul_le_mul_right _ hE
  rw [foldSize]
  by_cases h : i < N % E
  · rw [if_pos h]; omega
  · rw [if_neg h]; omega

lemma trainIndices_ne_nil (N E i : ℕ) (hE : 2 ≤ E) (hEN : E ≤ N) (hi : i < E) :
    trainIndices N E i ≠ [] := by
  have hpos : 0 < E := by omega
  have hN : 0 < N := by omega
  by_cases h0 : foldStart N E i = 0
  · have hsz : foldSize N E i < N := foldSize_lt N E i hE hEN
    have hmem : foldStart N E (i + 1) ∈ trainIndices N E i := by
      rw [mem_trainIndices, mem_testIndices N E i hpos hi]
      constructor
      · rw [foldStart]; omega
      · rintro ⟨_, hlt⟩; omega
    exact List.ne_nil_of_mem hmem
  · have hmem : 0 ∈ trainIndices N E i := by
      rw [mem_trainIndices, mem_testIndices N E i hpos hi]
      refine ⟨hN, ?_⟩
      rintro ⟨hle, _⟩
      exact h0 (Nat.le_zero.mp hle)
    exact List.ne_nil_of_mem hmem

/-- Claim C5: with ensembling enabled, the `KFold(n_splits=E)` partition used
by `DynamicsModel.train` (no shuffling, so the sklearn preconditions
`2 ≤ E ≤ N` hold on any run that reaches the loop) puts every sample index
into exactly one member's held-out fold and into exactly `E - 1` members'
training index sets, and no member's training set is empty. -/
theorem claim_c5 (N E j : ℕ) (hE : 2 ≤ E) (hEN : E ≤ N) (hj : j < N) :
    ((Finset.range E).filter (fun i => j ∈ testIndices N E i)).card = 1
    ∧ ((Finset.range E).filter (fun i => j ∈ trainIndices N E i)).card = E - 1
    ∧ ∀ i < E, trainIndices N E i ≠ [] := by
  have hpos : 0 < E := by omega
  obtain ⟨i0, ⟨hi0E, hi0mem⟩, huniq⟩ := exists_unique_fold N E j hpos hj
  have hset : ((Finset.range E).filter (fun i => j ∈ testIndices N E i)) = {i0} := by
    ext i
    simp only [Finset.mem_filter, Finset.mem_range, Finset.mem_singleton]
    constructor
    · rintro ⟨hiE, hmem⟩
      exact huniq i ⟨hiE, hmem⟩
    · rintro rfl
      exact ⟨hi0E, hi0mem⟩
  refine ⟨by rw [hset]; exact Finset.card_singleton i0, ?_,
    fun i hi => trainIndices_ne_nil N E i hE hEN hi⟩
  have hcompl : (Finset.range E).filter (fun i => j ∈ trainIndices N E i)
      = Finset.range E \ (Finset.range E).filter (fun i => j ∈ testIndices N E i) := by
    ext i
    simp only [Finset.mem_filter, Finset.mem_sdiff, Finset.mem_range, mem_trainIndices]
    constructor
    · rintro ⟨hiE, _, hnot⟩
      exact ⟨hiE, fun hc => hnot hc.2⟩
    · rintro ⟨hiE, hnot⟩
      exact ⟨hiE, hj, fun hc => hnot ⟨hiE, hc⟩⟩
  rw [hcompl, Finset.card_sdiff (Finset.filter_subset _ _), hset,
    Finset.card_singleton, Finset.card_range]

/-- Claim C5 witness: the partition facts at `N = 5`, `E = 2`, sample `0`. -/
theorem claim_c5_witness :
    ((Finset.range 2).filter (fun i => 0 ∈ testIndices 5 2 i)).card = 1
    ∧ ((Finset.range 2).filter (fun i => 0 ∈ trainIndices 5 2 i)).card = 2 - 1
    ∧ ∀ i < 2, trainIndices 5 2 i ≠ [] :=
  claim_c5 5 2 0 (by norm_num) (by norm_num) (by norm_num)

/-- Claim C10: the `KFold` split is deterministic and unshuffled — member
`i`'s held-out fold is exactly the `i`-th contiguous block of sample
indices, starting at `i * (N / E) + min i (N % E)` with `foldSize N E i`
consecutive indices; the partition is a pure function of `(N, E)`, so two
calls of `train` on the same dataset assign identical index sets. -/
theorem claim_c10 (N E i : ℕ) (hE : 0 < E) (hi : i < E) :
    testIndices N E i = List.range' (i * (N / E) + min i (N % E)) (foldSize N E i) := by
  rw [testIndices_eq N E i hE hi, foldStart_closed]

/-- Claim C10 witness: the contiguous-block equation at `N = 5`, `E = 2`,
member `1` (held-out fold `[3, 4]`). -/
theorem claim_c10_witness :
    testIndices 5 2 1 = List.range' (1 * (5 / 2) + min 1 (5 % 2)) (foldSize 5 2 1) :=
  claim_c10 5 2 1 (by norm_num) (by norm_num)

/-! ### `Net.optimize` claims -/

lemma optimizeRun_ok {α β : Type} (dataset : List α × List β) (cfg : OptCfg)
    (trainLoss testLoss : ℕ → ℕ → ℝ) (hbs : cfg.batch ≠ 0)
    (htr : (pySliceTo (dataset.1.zip dataset.2)
        (pyIntOfRat (cfg.split * (dataset.1.zip dataset.2).length))).length ≠ 0)
    (hte : (pySliceFrom (dataset.1.zip dataset.2)
        (pyIntOfRat (cfg.split * (dataset.1.zip dataset.2).length))).length ≠ 0) :
    optimizeRun dataset cfg trainLoss testLoss
      = Except.ok
          ((List.range cfg.epochs.toNat).map (fun e =>
             (List.range (loaderLen (pySliceTo (dataset.1.zip dataset.2)
                 (pyIntOfRat (cfg.split * (dataset.1.zip dataset.2).length))).length
                 cfg.batch)).foldl
               (fun acc i => acc + trainLoss e i /
                 ((loaderLen (pySliceTo (dataset.1.zip dataset.2)
                     (pyIntOfRat (cfg.split * (dataset.1.zip dataset.2).length))).length
                     cfg.batch * cfg.batch : ℕ) : ℝ)) 0),
           (List.range cfg.epochs.toNat).map (fun e =>
             (List.range (loaderLen (pySliceFrom (dataset.1.zip dataset.2)
                 (pyIntOfRat (cfg.split * (dataset.1.zip dataset.2).length))).length
                 cfg.batch)).foldl
               (fun acc i => acc + testLoss e i /
                 ((loaderLen (pySliceFrom (dataset.1.zip dataset.2)
                     (pyIntOfRat (cfg.split * (dataset.1.zip dataset.2).length))).length
                     cfg.batch * cfg.batch : ℕ) : ℝ)) 0)) := by
  simp only [optimizeRun]
  rw [if_neg htr, if_neg hbs, if_neg hte]

/-- The optimizer configuration of the C7 failing input: batch size 2,
split fraction exactly `1.0`, 3 epochs. -/
def cfgC7 : OptCfg := ⟨0, 2, 1, 3⟩

/-- Claim C7: the claim (and the spec) say that with split fraction `1.0`
`Net.optimize` completes and returns a defined per-epoch test error of `0`,
and indeed the feared division by `len(testLoader) * batch` sits inside the
never-executed batch loop; but the source never gets that far: it builds
`DataLoader(dataset[n:], batch_size=bs, shuffle=True)` on the empty test
slice, and with `shuffle=True` the eagerly constructed `RandomSampler`
rejects an empty data source, raising
`ValueError: num_samples should be a positive integer value, but got
num_samples=0` at loader construction, before the first epoch.  So on the
claimed input `Net.optimize` crashes instead of returning zero test errors:
the claim states the intended behaviour and the code fails it.  This
theorem evaluates the embedded `optimizeRun` at the failing input. -/
theorem claim_c7 :
    optimizeRun (([0, 1, 2] : List ℕ), ([3, 4, 5] : List ℕ)) cfgC7
        (fun _ _ => 0) (fun _ _ => 0)
      = Except.error "num_samples should be a positive integer value, but got num_samples=0"
    ∧ cfgC7.split = 1 := by
  refine ⟨?_, rfl⟩
  norm_num [optimizeRun, pyIntOfRat, pySliceTo, pySliceFrom, cfgC7]

/-- Claim C8 (amended): neither `DynamicsModel.__init__` nor `Net.optimize`
validates hyperparameters or fails fast: whenever the batch size is
positive and the train and test slices are nonempty, `optimize` returns
normally (`Except.ok`) — non-positive epochs silently yield empty error
sequences, a batch size larger than the dataset yields a single smaller
batch, and a split fraction outside `[0, 1]` is silently reinterpreted by
python slice semantics (e.g. `split = -1/2` trains on the first half).  The
only errors ever raised are incidental `ValueError`s at `DataLoader`
construction — a non-positive batch size (`BatchSampler`) or an empty
train/test slice (`RandomSampler` under `shuffle=True`) — never the claimed
deliberate fail-fast validation. -/
theorem claim_c8_amended {α β : Type} (dataset : List α × List β) (cfg : OptCfg)
    (trainLoss testLoss : ℕ → ℕ → ℝ) (hbs : cfg.batch ≠ 0)
    (htr : (pySliceTo (dataset.1.zip dataset.2)
        (pyIntOfRat (cfg.split * (dataset.1.zip dataset.2).length))).length ≠ 0)
    (hte : (pySliceFrom (dataset.1.zip dataset.2)
        (pyIntOfRat (cfg.split * (dataset.1.zip dataset.2).length))).length ≠ 0) :
    ∃ r, optimizeRun dataset cfg trainLoss testLoss = Except.ok r :=
  ⟨_, optimizeRun_ok dataset cfg trainLoss testLoss hbs htr hte⟩

/-- An invalid optimizer configuration: `epochs = 0` (non-positive). -/
def cfgC8 : OptCfg := ⟨0, 2, 1 / 2, 0⟩

/-- Claim C8 counterexample: on a 4-sample dataset with the invalid
configuration `cfgC8` (non-positive epoch count), the training entry point
raises no error: it silently returns `Except.ok` with two empty error
sequences instead of failing fast. -/
theorem claim_c8_counterexample :
    optimizeRun (([0, 1, 2, 3] : List ℕ), ([0, 1, 2, 3] : List ℕ)) cfgC8
        (fun _ _ => 0) (fun _ _ => 0)
      = Except.ok (([] : List ℝ), ([] : List ℝ))
    ∧ cfgC8.epochs ≤ 0 := by
  refine ⟨?_, by norm_num [cfgC8]⟩
  norm_num [optimizeRun, pyIntOfRat, pySliceTo, pySliceFrom, cfgC8, Int.toNat_ofNat]
  intro h
  exact absurd h (by omega)

/-- An invalid optimizer configuration for the C8 witness: split fraction
`-1/2` (outside `[0, 1]`), `epochs = -1` (non-positive), batch size `5`
larger than the 4-sample dataset. -/
def cfgC8w : OptCfg := ⟨0, 5, -(1 / 2), -1⟩

/-- Claim C8 witness: the amended no-validation statement instantiated at a
configuration in which all three hyperparameters are invalid — the call
still returns normally. -/
theorem claim_c8_witness :
    ∃ r, optimizeRun (([0, 1, 2, 3] : List ℕ), ([4, 5, 6, 7] : List ℕ)) cfgC8w
        (fun _ _ => 0) (fun _ _ => 0) = Except.ok r :=
  claim_c8_amended _ cfgC8w _ _ (by norm_num [cfgC8w])
    (by norm_num [pySliceTo, pyIntOfRat, cfgC8w, Int.toNat_ofNat]; omega)
    (by norm_num [pySliceFrom, pyIntOfRat, cfgC8w, Int.toNat_ofNat]; omega)
